import Mathlib

/-!
Shallow embedding of the paginated-fetch pipeline and record transform
utilities of `src/lib/api.ts` (a twitterapi.io client), together with a
model of the cache store specified in the design document (whose
implementation file is not part of the sources; only its tests are).

Modelling conventions:
* JS numbers used as counts are `Nat`; epoch-millisecond timestamps are
  `Int`.
* The JS `Date` parser (`new Date(s).getTime()`) is an abstract parameter
  `dateMs : String → Option Int`, `none` standing for `NaN` (an invalid
  date); `Date.now()` is an explicit parameter `now : Int`.
* The UTC calendar formatting of a timestamp (`getUTCFullYear` …) is an
  abstract parameter `fmt : Int → String`; no claim depends on the
  rendered text.
* The remote transport is an oracle giving the response to the n-th call
  of a fetch; falsy `has_next_page` is `false`, a falsy `next_cursor` is
  the empty string, and a missing or non-array record-list field is
  `none`.
* Record normalization (`parseTweet`) is, as the spec states, a fixed
  injectable transform: an abstract `parse : Raw → Tweet`.
* The embedding is pure, so "never mutates its input" holds by
  construction; theorems state the extensional content (permutation,
  order, stability).
-/

namespace TwitterApi

/-- Engagement counters of a tweet (`Tweet.metrics` in `src/lib/api.ts`). -/
structure Metrics where
  likes : Nat
  retweets : Nat
  replies : Nat
  quotes : Nat
  impressions : Nat
  bookmarks : Nat
deriving DecidableEq, Repr

/-- The normalized record of `src/lib/api.ts` (`interface Tweet`). -/
structure Tweet where
  id : String
  text : String
  author_id : String
  username : String
  name : String
  created_at : String
  conversation_id : String
  metrics : Metrics
  urls : List String
  mentions : List String
  hashtags : List String
  tweet_url : String
deriving DecidableEq, Repr

/-- The metric names accepted by `sortBy` in `src/lib/api.ts`. -/
inductive Metric where
  | likes
  | impressions
  | retweets
  | replies
deriving DecidableEq, Repr

/-- Dynamic field access `t.metrics[metric]` used by `sortBy`. -/
def Metrics.get (m : Metrics) : Metric → Nat
  | Metric.likes => m.likes
  | Metric.impressions => m.impressions
  | Metric.retweets => m.retweets
  | Metric.replies => m.replies

/-- JS `opts.x || d` for a numeric option: `undefined` and `0` both fall
back to the default `d` (lines 210, 267, 315 of `src/lib/api.ts`). -/
def jsOr (x : Option Nat) (d : Nat) : Nat :=
  match x with
  | some v => if v = 0 then d else v
  | none => d

/-- `RATE_DELAY_MS` of `src/lib/api.ts` line 10. -/
def RATE_DELAY_MS : Nat := 200

/-- One page of a remote response, as far as the pagination loop reads it:
the two possible record-list fields (`tweets` / `replies`), the advisory
continuation flag and the next cursor.  `none` for a record list means the
field is absent or not an array; `""` for `next_cursor` means falsy. -/
structure Page (Raw : Type) where
  tweets : Option (List Raw)
  replies : Option (List Raw)
  has_next_page : Bool
  next_cursor : String

/-- `parseTweets` of `src/lib/api.ts` lines 104–107: a missing or
non-array record list yields zero records, otherwise every raw item is
normalized by the injectable transform. -/
def parseTweets {Raw : Type} (parse : Raw → Tweet) : Option (List Raw) → List Tweet
  | none => []
  | some l => l.map parse

/-- Observable events of one fetch: a transport call (with the cursor it
sends, `""` on a first page or a cursor-less request) or a wait of the
given number of milliseconds. -/
inductive Ev where
  | call (cursor : String)
  | sleep (ms : Nat)
deriving DecidableEq, Repr

/-- Number of transport calls recorded in a trace. -/
def numCalls (evs : List Ev) : Nat :=
  evs.countP fun e =>
    match e with
    | Ev.call _ => true
    | Ev.sleep _ => false

/-- A well-formed fetch trace: transport calls strictly alternating with
single waits, beginning and ending with a call (so a delay separates any
two back-to-back calls and no trailing wait occurs). The empty trace is
well-formed. -/
def altB : List Ev → Bool
  | [] => true
  | [Ev.call _] => true
  | Ev.call _ :: Ev.sleep _ :: Ev.call c :: rest => altB (Ev.call c :: rest)
  | _ => false

/-- The cursor-following loop shared verbatim by `search` (lines
225–239), `thread` (lines 271–282) and `profile` (lines 320–334) of
`src/lib/api.ts`.  `fuel` is the remaining page budget (`pages - page`),
`idx` the index of the next transport call, `cursor` the cursor to send,
`acc` the records accumulated so far.  Returns the accumulated records
and the trace of calls and inter-page delays.  The loop breaks when the
continuation flag is false or the cursor is falsy, and sleeps only when a
further page will actually be fetched (`page < pages - 1`). -/
def fetchGo {Raw : Type} (resp : Nat → Page Raw) (extract : Page Raw → Option (List Raw))
    (parse : Raw → Tweet) : Nat → Nat → String → List Tweet → List Tweet × List Ev
  | 0, _, _, acc => (acc, [])
  | fuel + 1, idx, cursor, acc =>
    let raw := resp idx
    let acc' := acc ++ parseTweets parse (extract raw)
    if raw.has_next_page = false ∨ raw.next_cursor = "" then
      (acc', [Ev.call cursor])
    else if fuel = 0 then
      (acc', [Ev.call cursor])
    else
      let r := fetchGo resp extract parse fuel (idx + 1) raw.next_cursor acc'
      (r.1, Ev.call cursor :: Ev.sleep RATE_DELAY_MS :: r.2)

/-- Numeric value of a digit string (`parseInt(match[1])` on the digits
captured by the shorthand regex). -/
def digitsToNat (cs : List Char) : Nat :=
  cs.foldl (fun n c => n * 10 + (c.toNat - '0'.toNat)) 0

/-- The shorthand branch shared by `parseSince` (lines 119–128) and
`parseSinceDate` (lines 156–165): a string matching `^(\d+)(m|h|d)$`
denotes this many milliseconds before now; any other string gives
`none`. -/
def sinceShorthandMs (s : String) : Option Nat :=
  let cs := s.toList
  match cs.getLast? with
  | none => none
  | some u =>
    let ds := cs.dropLast
    if (!ds.isEmpty && ds.all Char.isDigit && (u == 'm' || u == 'h' || u == 'd')) then
      some (digitsToNat ds *
        (if u == 'm' then 60000 else if u == 'h' then 3600000 else 86400000))
    else none

/-- `parseSince` of `src/lib/api.ts` lines 115–150: resolve a shorthand
or ISO `since` value to a `since:` query operator, formatting the cutoff
with the (abstracted) UTC calendar renderer, or `none` when the value is
unparseable. -/
def parseSince (now : Int) (dateMs : String → Option Int) (fmt : Int → String)
    (since : String) : Option String :=
  match sinceShorthandMs since with
  | some ms => some ("since:" ++ fmt (now - (ms : Int)))
  | none =>
    if since.contains 'T' || since.contains '-' then
      match dateMs since with
      | some ms => some ("since:" ++ fmt ms)
      | none => none
    else none

/-- `parseSinceDate` of `src/lib/api.ts` lines 155–173: the client-side
cutoff (epoch milliseconds) derived from a `since` value, or `none` when
the value is unparseable. -/
def parseSinceDate (now : Int) (dateMs : String → Option Int) (since : String) : Option Int :=
  match sinceShorthandMs since with
  | some ms => some (now - (ms : Int))
  | none =>
    if since.contains 'T' || since.contains '-' then dateMs since
    else none

/-- JS `String.prototype.includes` over character lists: does `pat`
occur as a contiguous substring? -/
def includesSub (pat : List Char) : List Char → Bool
  | [] => pat.isEmpty
  | c :: cs => pat.isPrefixOf (c :: cs) || includesSub pat cs

/-- The outgoing query of `search` (lines 213–220): the computed `since:`
operator is appended only when it parsed and the query does not already
contain the substring `"since:"`. -/
def searchQuery (now : Int) (dateMs : String → Option Int) (fmt : Int → String)
    (query : String) (since : Option String) : String :=
  match since with
  | none => query
  | some s =>
    match parseSince now dateMs fmt s with
    | none => query
    | some op =>
      if includesSub "since:".toList query.toList then query else query ++ " " ++ op

/-- The client-side recency backstop of `search` (lines 241–250): when a
`since` value was supplied and parses to a cutoff, keep only records
whose normalized creation time parses and is at or after the cutoff (a
`NaN` creation time compares false and is dropped). -/
def sinceFilter (now : Int) (dateMs : String → Option Int) (since : Option String)
    (l : List Tweet) : List Tweet :=
  match since with
  | none => l
  | some s =>
    match parseSinceDate now dateMs s with
    | none => l
    | some cutoff =>
      l.filter fun t =>
        match dateMs t.created_at with
        | some ms => cutoff ≤ ms
        | none => false

/-- The result-count ceiling of `search` (lines 252–254): `slice(0,
maxResults)` is applied only when `opts.maxResults` is truthy. -/
def applyMax (maxResults : Option Nat) (l : List Tweet) : List Tweet :=
  match maxResults with
  | none => l
  | some m => if m = 0 then l else l.take m

/-- Options of `search` (lines 203–208). -/
structure SearchOpts where
  maxResults : Option Nat
  pages : Option Nat
  sortOrder : Option String
  since : Option String

/-- `search` up to the end of the recency backstop (lines 210–250): page
budget defaulting, outgoing-query construction, the pagination loop, and
the client-side `since` re-filter — everything before the result-count
ceiling.  The transport oracle takes the outgoing query, the computed
`queryType` and the call index. -/
def searchAccum {Raw : Type} (resp : String → String → Nat → Page Raw) (parse : Raw → Tweet)
    (now : Int) (dateMs : String → Option Int) (fmt : Int → String)
    (query : String) (opts : SearchOpts) : List Tweet × List Ev :=
  let pages := jsOr opts.pages 1
  let queryType := if opts.sortOrder == some "recency" then "Latest" else "Top"
  let fullQuery := searchQuery now dateMs fmt query opts.since
  let r := fetchGo (resp fullQuery queryType) Page.tweets parse pages 0 "" []
  (sinceFilter now dateMs opts.since r.1, r.2)

/-- `search` of `src/lib/api.ts` lines 201–257: the accumulation pipeline
followed by the result-count ceiling. -/
def search {Raw : Type} (resp : String → String → Nat → Page Raw) (parse : Raw → Tweet)
    (now : Int) (dateMs : String → Option Int) (fmt : Int → String)
    (query : String) (opts : SearchOpts) : List Tweet × List Ev :=
  let r := searchAccum resp parse now dateMs fmt query opts
  (applyMax opts.maxResults r.1, r.2)

/-- Options of `thread` (line 265). -/
structure ThreadOpts where
  pages : Option Nat

/-- `thread` of `src/lib/api.ts` lines 263–285: the same loop over the
`thread_context` endpoint, extracting the `replies` field, with a page
budget defaulting to 2.  The transport oracle takes the tweet id and the
call index. -/
def thread {Raw : Type} (resp : String → Nat → Page Raw) (parse : Raw → Tweet)
    (tweetId : String) (opts : ThreadOpts) : List Tweet × List Ev :=
  let pages := jsOr opts.pages 2
  fetchGo (resp tweetId) Page.replies parse pages 0 "" []

/-- Options of `profile` (line 293). -/
structure ProfileOpts where
  count : Option Nat
  includeReplies : Bool

/-- The user-info response of `profile` as far as the error check reads
it (lines 296–300): whether `data` is present and whether `status` is
`"error"`. -/
structure UserResp where
  hasData : Bool
  isError : Bool

/-- `profile` of `src/lib/api.ts` lines 291–340, restricted to its
observable fetch behaviour: `none` models the `User not found` throw;
otherwise the page budget is `Math.ceil(count / 20)` with `count`
defaulting to 20, the loop extracts the `tweets` field, the result is
trimmed to `count`, and the trace opens with the user-info call and the
unconditional delay of line 312.  The transport oracle takes the
username, the stringified reply-inclusion toggle and the call index. -/
def profile {Raw : Type} (userResp : UserResp) (resp : String → String → Nat → Page Raw)
    (parse : Raw → Tweet) (username : String) (opts : ProfileOpts) :
    Option (List Tweet × List Ev) :=
  if userResp.hasData = false ∨ userResp.isError = true then none
  else
    let count := jsOr opts.count 20
    let pagesToFetch := (count + 19) / 20
    let r := fetchGo (resp username (if opts.includeReplies then "true" else "false"))
      Page.tweets parse pagesToFetch 0 "" []
    some (r.1.take count, Ev.call "" :: Ev.sleep RATE_DELAY_MS :: r.2)

/-- `dedupe` of `src/lib/api.ts` lines 382–389, with the mutable `seen`
set made an explicit accumulator: keep a record only when its id has not
been seen, recording each kept id. -/
def dedupeGo (seen : List String) : List Tweet → List Tweet
  | [] => []
  | t :: ts =>
    if t.id ∈ seen then dedupeGo seen ts
    else t :: dedupeGo (t.id :: seen) ts

/-- `dedupe` of `src/lib/api.ts` lines 382–389. -/
def dedupe (tweets : List Tweet) : List Tweet :=
  dedupeGo [] tweets

/-- Stable insertion into a descending-sorted list: the new element (the
earlier one in the original order) is placed before the first element
whose key does not exceed its own. -/
def insertDesc (key : Tweet → Nat) (t : Tweet) : List Tweet → List Tweet
  | [] => [t]
  | u :: us => if key u ≤ key t then t :: u :: us else u :: insertDesc key t us

/-- Stable descending sort by a key, processing the list left to right.
This realises the JS engine's stable `Array.prototype.sort` under the
comparator `(a, b) => key(b) - key(a)`. -/
def sortByKey (key : Tweet → Nat) : List Tweet → List Tweet
  | [] => []
  | t :: ts => insertDesc key t (sortByKey key ts)

/-- `sortBy` of `src/lib/api.ts` lines 357–362: a stable sort of a copy
of the input, descending by the named engagement counter. -/
def sortBy (tweets : List Tweet) (metric : Metric) : List Tweet :=
  sortByKey (fun t => t.metrics.get metric) tweets

/-- Modelled from the spec: `src/lib/cache.ts` is absent from the
sources (only its test file is present), so the cache store is modelled
from §4.1 of the design document.  An entry records its payload (`none`
standing for an unreadable or corrupt on-disk file) and its last-write
time (the on-disk modification time used as the creation proxy). -/
structure CacheEntry where
  payload : Option (List Tweet)
  mtime : Int

/-- Modelled from the spec: the store maps derived keys to entries; a
missing file is `none`. -/
def CacheStore : Type := String → Option CacheEntry

namespace cache

/-- Modelled from the spec: deterministic key derivation from the
logical query and the opaque parameter string (concatenation with a
separator is sufficient per §3). -/
def cacheKey (query params : String) : String :=
  query ++ "|" ++ params

/-- Modelled from the spec: the documented default TTL of 15 minutes. -/
def DEFAULT_TTL_MS : Int := 900000

/-- Modelled from the spec: `set(query, params, records)` serializes the
full record sequence and atomically replaces any existing entry for the
derived key, stamping the current time. -/
def set (st : CacheStore) (now : Int) (query params : String)
    (records : List Tweet) : CacheStore :=
  fun k => if k = cacheKey query params then some ⟨some records, now⟩ else st k

/-- Modelled from the spec: `get(query, params, ttlMillis)` returns the
stored records when an entry exists, its payload is readable and its age
(now minus last-write time) is at most the TTL; otherwise absent. -/
def get (st : CacheStore) (now : Int) (query params : String)
    (ttl : Int) : Option (List Tweet) :=
  match st (cacheKey query params) with
  | none => none
  | some e =>
    match e.payload with
    | none => none
    | some records => if now - e.mtime ≤ ttl then some records else none

end cache

/-! Concrete fixtures used to evaluate the definitions on closed inputs. -/

/-- A concrete record. -/
def wT1 : Tweet :=
  ⟨"1", "first", "u1", "testuser", "Test User", "2026-01-01T00:00:00.000Z", "1",
    ⟨10, 5, 1, 0, 100, 0⟩, [], [], [], ""⟩

/-- A record sharing `wT1`'s identifier but not its text. -/
def wT1b : Tweet :=
  ⟨"1", "copy", "u1", "testuser", "Test User", "2026-01-01T00:00:00.000Z", "1",
    ⟨10, 5, 1, 0, 100, 0⟩, [], [], [], ""⟩

/-- A second concrete record with a distinct identifier. -/
def wT2 : Tweet :=
  ⟨"2", "second", "u1", "testuser", "Test User", "2026-01-01T00:00:00.000Z", "2",
    ⟨50, 2, 3, 1, 500, 2⟩, [], [], [], ""⟩

/-- A record sequence with a repeated identifier. -/
def wDup : List Tweet := [wT1, wT2, wT1b]

/-- A concrete stand-in for the JS date parser: it knows exactly the
creation time used by the fixture records. -/
def wDateMs : String → Option Int :=
  fun s => if s = "2026-01-01T00:00:00.000Z" then some 5000000 else none

/-- A concrete stand-in for the UTC calendar renderer. -/
def wFmt : Int → String := fun _ => "2026-01-01_00:00:00_UTC"

/-- A transport oracle answering every search call with one record and no
continuation. -/
def wRespOne : String → String → Nat → Page Tweet :=
  fun _ _ _ => ⟨some [wT1], none, false, ""⟩

/-- A transport oracle answering every search call with one record, a
true continuation flag and a cursor. -/
def wRespC : String → String → Nat → Page Tweet :=
  fun _ _ _ => ⟨some [wT1], none, true, "c"⟩

/-- A page-indexed oracle claiming more data but carrying no cursor. -/
def wRespStop : Nat → Page Tweet := fun _ => ⟨none, none, true, ""⟩

/-- A page-indexed oracle whose record-list field is always absent. -/
def wRespNoneRecs : Nat → Page Tweet := fun _ => ⟨none, none, true, "c"⟩

/-- The empty cache store. -/
def emptyStore : CacheStore := fun _ => none

/-- Search options asking for the last hour. -/
def wOpts2 : SearchOpts := ⟨none, none, none, some "1h"⟩

/-- Search options with a result-count ceiling of 5. -/
def wOpts4 : SearchOpts := ⟨some 5, none, none, none⟩

/-- Search options with a page budget of 2. -/
def wOptsC : SearchOpts := ⟨none, some 2, none, none⟩

/-- A found user-info response. -/
def wUser : UserResp := ⟨true, false⟩

/-- Profile options asking for 21 tweets. -/
def wPOpts : ProfileOpts := ⟨some 21, false⟩

/-- The value of `profile wUser wRespC id "u" wPOpts`. -/
def wProfOut : List Tweet × List Ev :=
  ([wT1, wT1],
    [Ev.call "", Ev.sleep 200, Ev.call "", Ev.sleep 200, Ev.call "c"])

/-! Lemmas about the pagination loop. -/

theorem numCalls_nil : numCalls [] = 0 := rfl

theorem numCalls_call (c : String) (evs : List Ev) :
    numCalls (Ev.call c :: evs) = numCalls evs + 1 := by
  simp [numCalls]

theorem numCalls_sleep (m : Nat) (evs : List Ev) :
    numCalls (Ev.sleep m :: evs) = numCalls evs := by
  simp [numCalls]

theorem fetchGo_le_calls {Raw : Type} (resp : Nat → Page Raw)
    (extract : Page Raw → Option (List Raw)) (parse : Raw → Tweet) :
    ∀ fuel idx cur acc, numCalls (fetchGo resp extract parse fuel idx cur acc).2 ≤ fuel := by
  intro fuel
  induction fuel with
  | zero => intro idx cur acc; simp [fetchGo, numCalls]
  | succ n ih =>
    intro idx cur acc
    simp only [fetchGo]
    split
    · simp [numCalls]
    · split
      · simp [numCalls]
      · have h := ih (idx + 1) (resp idx).next_cursor
          (acc ++ parseTweets parse (extract (resp idx)))
        simp only [numCalls_call, numCalls_sleep]
        omega

theorem fetchGo_stop_calls {Raw : Type} (resp : Nat → Page Raw)
    (extract : Page Raw → Option (List Raw)) (parse : Raw → Tweet) (k : Nat)
    (hk : (resp k).has_next_page = false ∨ (resp k).next_cursor = "") :
    ∀ fuel idx cur acc, idx ≤ k →
      numCalls (fetchGo resp extract parse fuel idx cur acc).2 ≤ k - idx + 1 := by
  intro fuel
  induction fuel with
  | zero => intro idx cur acc _; simp [fetchGo, numCalls]
  | succ n ih =>
    intro idx cur acc hidx
    simp only [fetchGo]
    split
    · simp [numCalls]
    · split
      · simp [numCalls]
      · rename_i hbreak _
        have hne : idx ≠ k := by
          intro h
          subst h
          rcases hk with h1 | h1 <;> exact hbreak (by simp [h1])
        have h := ih (idx + 1) (resp idx).next_cursor
          (acc ++ parseTweets parse (extract (resp idx))) (by omega)
        simp only [numCalls_call, numCalls_sleep]
        omega

theorem fetchGo_one {Raw : Type} (resp : Nat → Page Raw)
    (extract : Page Raw → Option (List Raw)) (parse : Raw → Tweet)
    (idx : Nat) (cur : String) (acc : List Tweet) :
    (fetchGo resp extract parse 1 idx cur acc).2 = [Ev.call cur] := by
  simp only [fetchGo]
  split
  · rfl
  · rfl

theorem fetchGo_trace_shape {Raw : Type} (resp : Nat → Page Raw)
    (extract : Page Raw → Option (List Raw)) (parse : Raw → Tweet) :
    ∀ fuel idx cur acc,
      altB (fetchGo resp extract parse fuel idx cur acc).2 = true ∧
      (0 < fuel → ∃ r, (fetchGo resp extract parse fuel idx cur acc).2 = Ev.call cur :: r) := by
  intro fuel
  induction fuel with
  | zero => intro idx cur acc; simp [fetchGo, altB]
  | succ n ih =>
    intro idx cur acc
    simp only [fetchGo]
    split
    · exact ⟨rfl, fun _ => ⟨[], rfl⟩⟩
    · split
      · exact ⟨rfl, fun _ => ⟨[], rfl⟩⟩
      · rename_i hfuel
        have h := ih (idx + 1) (resp idx).next_cursor
          (acc ++ parseTweets parse (extract (resp idx)))
        obtain ⟨halt, hhead⟩ := h
        obtain ⟨r, hr⟩ := hhead (Nat.pos_of_ne_zero hfuel)
        refine ⟨?_, fun _ => ⟨_, rfl⟩⟩
        simp only [hr] at halt ⊢
        simpa [altB] using halt

theorem fetchGo_sleep_ms {Raw : Type} (resp : Nat → Page Raw)
    (extract : Page Raw → Option (List Raw)) (parse : Raw → Tweet) :
    ∀ fuel idx cur acc m, Ev.sleep m ∈ (fetchGo resp extract parse fuel idx cur acc).2 →
      m = RATE_DELAY_MS := by
  intro fuel
  induction fuel with
  | zero => intro idx cur acc m h; simp [fetchGo] at h
  | succ n ih =>
    intro idx cur acc m h
    simp only [fetchGo] at h
    split at h
    · simp at h
    · split at h
      · simp at h
      · simp only [List.mem_cons] at h
        rcases h with h | h | h
        · exact absurd h (by simp)
        · exact (Ev.sleep.injEq _ _).mp h.symm ▸ rfl
        · exact ih _ _ _ m h

theorem fetchGo_none_records {Raw : Type} (resp : Nat → Page Raw)
    (extract : Page Raw → Option (List Raw)) (parse : Raw → Tweet)
    (hnone : ∀ k, extract (resp k) = none) :
    ∀ fuel idx cur acc, (fetchGo resp extract parse fuel idx cur acc).1 = acc := by
  intro fuel
  induction fuel with
  | zero => intro idx cur acc; simp [fetchGo]
  | succ n ih =>
    intro idx cur acc
    simp only [fetchGo, hnone idx, parseTweets, List.append_nil]
    split
    · rfl
    · split
      · rfl
      · exact ih (idx + 1) (resp idx).next_cursor acc

/-! Lemmas about the search pipeline. -/

theorem mem_applyMax {m : Option Nat} {l : List Tweet} {t : Tweet}
    (h : t ∈ applyMax m l) : t ∈ l := by
  cases m with
  | none => exact h
  | some k =>
    simp only [applyMax] at h
    split at h
    · exact h
    · exact List.take_subset _ _ h

theorem search_fst_eq {Raw : Type} (resp : String → String → Nat → Page Raw)
    (parse : Raw → Tweet) (now : Int) (dateMs : String → Option Int) (fmt : Int → String)
    (query : String) (opts : SearchOpts) :
    (search resp parse now dateMs fmt query opts).1 =
      applyMax opts.maxResults (searchAccum resp parse now dateMs fmt query opts).1 := rfl

theorem search_snd_eq {Raw : Type} (resp : String → String → Nat → Page Raw)
    (parse : Raw → Tweet) (now : Int) (dateMs : String → Option Int) (fmt : Int → String)
    (query : String) (opts : SearchOpts) :
    (search resp parse now dateMs fmt query opts).2 =
      (fetchGo (resp (searchQuery now dateMs fmt query opts.since)
          (if opts.sortOrder == some "recency" then "Latest" else "Top"))
        Page.tweets parse (jsOr opts.pages 1) 0 "" []).2 := rfl

theorem mem_sinceFilter_bound {now : Int} {dateMs : String → Option Int} {s : String}
    {cutoff : Int} (hc : parseSinceDate now dateMs s = some cutoff)
    {l : List Tweet} {t : Tweet} (ht : t ∈ sinceFilter now dateMs (some s) l) :
    ∃ ms, dateMs t.created_at = some ms ∧ cutoff ≤ ms := by
  simp only [sinceFilter, hc] at ht
  have hpred := (List.mem_filter.mp ht).2
  cases hdm : dateMs t.created_at with
  | none => rw [hdm] at hpred; simp at hpred
  | some ms =>
    rw [hdm] at hpred
    exact ⟨ms, rfl, by simpa using hpred⟩

theorem search_since_mem {Raw : Type} (resp : String → String → Nat → Page Raw)
    (parse : Raw → Tweet) (now : Int) (dateMs : String → Option Int) (fmt : Int → String)
    (query : String) (opts : SearchOpts) (s : String) (cutoff : Int)
    (hs : opts.since = some s) (hc : parseSinceDate now dateMs s = some cutoff) :
    ∀ t ∈ (search resp parse now dateMs fmt query opts).1,
      ∃ ms, dateMs t.created_at = some ms ∧ cutoff ≤ ms := by
  intro t ht
  rw [search_fst_eq] at ht
  have ht' := mem_applyMax ht
  simp only [searchAccum, hs] at ht'
  exact mem_sinceFilter_bound hc ht'

theorem jsOr_pos (x : Option Nat) (d : Nat) (hd : 0 < d) : 0 < jsOr x d := by
  cases x with
  | none => exact hd
  | some v =>
    simp only [jsOr]
    split
    · exact hd
    · omega

/-! Lemmas about `insertDesc`, `sortByKey` and `dedupe`. -/

theorem insertDesc_perm (key : Tweet → Nat) (t : Tweet) :
    ∀ l, (insertDesc key t l).Perm (t :: l)
  | [] => List.Perm.refl _
  | u :: us => by
    simp only [insertDesc]
    split
    · exact List.Perm.refl _
    · exact ((insertDesc_perm key t us).cons u).trans (List.Perm.swap t u us)

theorem sortByKey_perm (key : Tweet → Nat) : ∀ l, (sortByKey key l).Perm l
  | [] => List.Perm.refl _
  | t :: ts => (insertDesc_perm key t _).trans ((sortByKey_perm key ts).cons t)

theorem mem_insertDesc {key : Tweet → Nat} {t w : Tweet} {l : List Tweet} :
    w ∈ insertDesc key t l ↔ w = t ∨ w ∈ l := by
  rw [(insertDesc_perm key t l).mem_iff]
  simp

theorem insertDesc_pairwise (key : Tweet → Nat) (t : Tweet) :
    ∀ l, l.Pairwise (fun a b => key b ≤ key a) →
      (insertDesc key t l).Pairwise (fun a b => key b ≤ key a)
  | [], _ => by simp [insertDesc]
  | u :: us, h => by
    obtain ⟨hu, hus⟩ := List.pairwise_cons.mp h
    simp only [insertDesc]
    split
    · rename_i hle
      refine List.pairwise_cons.mpr ⟨?_, h⟩
      intro w hw
      rcases List.mem_cons.mp hw with rfl | hw
      · exact hle
      · exact le_trans (hu w hw) hle
    · rename_i hlt
      refine List.pairwise_cons.mpr ⟨?_, insertDesc_pairwise key t us hus⟩
      intro w hw
      rcases mem_insertDesc.mp hw with rfl | hw
      · omega
      · exact hu w hw

theorem sortByKey_pairwise (key : Tweet → Nat) :
    ∀ l, (sortByKey key l).Pairwise (fun a b => key b ≤ key a)
  | [] => List.Pairwise.nil
  | t :: ts => insertDesc_pairwise key t _ (sortByKey_pairwise key ts)

theorem insertDesc_filter (key : Tweet → Nat) (t : Tweet) (v : Nat) :
    ∀ l, (insertDesc key t l).filter (fun u => key u == v) =
      if key t == v then t :: l.filter (fun u => key u == v)
      else l.filter (fun u => key u == v)
  | [] => by
    simp only [insertDesc, List.filter_cons, List.filter_nil]
  | u :: us => by
    simp only [insertDesc]
    split
    · rename_i hle
      simp only [List.filter_cons]
    · rename_i hlt
      simp only [List.filter_cons, insertDesc_filter key t v us]
      by_cases htv : key t = v
      · have huv : ¬ (key u = v) := by omega
        simp [htv, huv]
      · simp [htv]

theorem sortByKey_filter (key : Tweet → Nat) (v : Nat) :
    ∀ l, (sortByKey key l).filter (fun u => key u == v) =
      l.filter (fun u => key u == v)
  | [] => rfl
  | t :: ts => by
    simp only [sortByKey, insertDesc_filter, sortByKey_filter key v ts, List.filter_cons]

theorem sortByKey_of_pairwise (key : Tweet → Nat) :
    ∀ l, l.Pairwise (fun a b => key b ≤ key a) → sortByKey key l = l
  | [], _ => rfl
  | t :: ts, h => by
    obtain ⟨hu, hus⟩ := List.pairwise_cons.mp h
    rw [sortByKey, sortByKey_of_pairwise key ts hus]
    cases ts with
    | nil => rfl
    | cons u us =>
      have : key u ≤ key t := hu u (by simp)
      simp [insertDesc, this]

theorem dedupeGo_sublist (seen : List String) : ∀ l, List.Sublist (dedupeGo seen l) l
  | [] => List.Sublist.refl _
  | t :: ts => by
    simp only [dedupeGo]
    split
    · exact (dedupeGo_sublist seen ts).cons t
    · exact (dedupeGo_sublist (t.id :: seen) ts).cons₂ t

theorem mem_dedupeGo_first {t : Tweet} :
    ∀ (l : List Tweet) (seen : List String), t ∈ dedupeGo seen l →
      t.id ∉ seen ∧ l.find? (fun u => u.id == t.id) = some t
  | [], _, h => by simp [dedupeGo] at h
  | u :: us, seen, h => by
    simp only [dedupeGo] at h
    split at h
    · rename_i hseen
      obtain ⟨hns, hfind⟩ := mem_dedupeGo_first us seen h
      have hne : (u.id == t.id) = false := by
        simp only [beq_eq_false_iff_ne, ne_eq]
        exact fun he => hns (he ▸ hseen)
      refine ⟨hns, ?_⟩
      rw [List.find?_cons, hne]
      exact hfind
    · rename_i hseen
      rcases List.mem_cons.mp h with rfl | h
      · refine ⟨hseen, ?_⟩
        rw [List.find?_cons]
        simp
      · obtain ⟨hns, hfind⟩ := mem_dedupeGo_first us (u.id :: seen) h
        have hne : (u.id == t.id) = false := by
          simp only [beq_eq_false_iff_ne, ne_eq]
          intro he
          exact hns (by simp [he])
        refine ⟨fun hc => hns (by simp [hc]), ?_⟩
        rw [List.find?_cons, hne]
        exact hfind

theorem dedupeGo_covers {t : Tweet} :
    ∀ (l : List Tweet) (seen : List String), t ∈ l →
      t.id ∈ seen ∨ ∃ u ∈ dedupeGo seen l, u.id = t.id
  | [], _, h => by simp at h
  | u :: us, seen, h => by
    simp only [dedupeGo]
    rcases List.mem_cons.mp h with rfl | h
    · split
      · rename_i hseen; exact Or.inl hseen
      · exact Or.inr ⟨t, by simp, rfl⟩
    · split
      · rename_i hseen
        exact dedupeGo_covers us seen h
      · rcases dedupeGo_covers us (u.id :: seen) h with hs | ⟨w, hw, hwid⟩
        · rcases List.mem_cons.mp hs with he | hs
          · exact Or.inr ⟨u, by simp, he.symm⟩
          · exact Or.inl hs
        · exact Or.inr ⟨w, by simp [hw], hwid⟩

theorem dedupeGo_pairwise (seen : List String) :
    ∀ l, (dedupeGo seen l).Pairwise (fun a b => a.id ≠ b.id)
  | [] => List.Pairwise.nil
  | t :: ts => by
    simp only [dedupeGo]
    split
    · exact dedupeGo_pairwise seen ts
    · refine List.pairwise_cons.mpr ⟨?_, dedupeGo_pairwise (t.id :: seen) ts⟩
      intro w hw
      have := (mem_dedupeGo_first ts (t.id :: seen) hw).1
      intro he
      exact this (by simp [he])

theorem dedupeGo_of_pairwise :
    ∀ (l : List Tweet) (seen : List String), l.Pairwise (fun a b => a.id ≠ b.id) →
      (∀ t ∈ l, t.id ∉ seen) → dedupeGo seen l = l
  | [], _, _, _ => rfl
  | t :: ts, seen, h, hseen => by
    obtain ⟨ht, hts⟩ := List.pairwise_cons.mp h
    simp only [dedupeGo]
    split
    · exact absurd ‹t.id ∈ seen› (hseen t (by simp))
    · rw [dedupeGo_of_pairwise ts (t.id :: seen) hts]
      intro w hw
      simp only [List.mem_cons, not_or]
      exact ⟨fun he => ht w hw he.symm, hseen w (by simp [hw])⟩

theorem dedupe_idem (l : List Tweet) : dedupe (dedupe l) = dedupe l := by
  unfold dedupe
  exact dedupeGo_of_pairwise _ [] (dedupeGo_pairwise [] l) (by simp)

/-! Trace-shape lemmas for the three endpoint fetches. -/

theorem search_trace_ok {Raw : Type} (resp : String → String → Nat → Page Raw)
    (parse : Raw → Tweet) (now : Int) (dateMs : String → Option Int) (fmt : Int → String)
    (query : String) (opts : SearchOpts) :
    altB (search resp parse now dateMs fmt query opts).2 = true ∧
    ∀ m, Ev.sleep m ∈ (search resp parse now dateMs fmt query opts).2 →
      m = RATE_DELAY_MS := by
  rw [search_snd_eq]
  exact ⟨(fetchGo_trace_shape _ _ _ _ 0 "" []).1,
    fun m hm => fetchGo_sleep_ms _ _ _ _ 0 "" [] m hm⟩

theorem thread_trace_ok {Raw : Type} (resp : String → Nat → Page Raw)
    (parse : Raw → Tweet) (tweetId : String) (opts : ThreadOpts) :
    altB (thread resp parse tweetId opts).2 = true ∧
    ∀ m, Ev.sleep m ∈ (thread resp parse tweetId opts).2 → m = RATE_DELAY_MS := by
  exact ⟨(fetchGo_trace_shape _ _ _ _ 0 "" []).1,
    fun m hm => fetchGo_sleep_ms _ _ _ _ 0 "" [] m hm⟩

theorem profile_trace_ok {Raw : Type} (userResp : UserResp)
    (resp : String → String → Nat → Page Raw) (parse : Raw → Tweet)
    (username : String) (opts : ProfileOpts) (out : List Tweet × List Ev)
    (h : profile userResp resp parse username opts = some out) :
    altB out.2 = true ∧ ∀ m, Ev.sleep m ∈ out.2 → m = RATE_DELAY_MS := by
  simp only [profile] at h
  split at h
  · exact absurd h (by simp)
  · have hout := Option.some.inj h
    subst hout
    have hpos : 1 ≤ (jsOr opts.count 20 + 19) / 20 := by
      rw [Nat.one_le_div_iff (by norm_num)]
      have := jsOr_pos opts.count 20 (by norm_num)
      omega
    have hshape := fetchGo_trace_shape
      (resp username (if opts.includeReplies then "true" else "false"))
      Page.tweets parse ((jsOr opts.count 20 + 19) / 20) 0 "" []
    obtain ⟨halt, hhead⟩ := hshape
    obtain ⟨r, hr⟩ := hhead hpos
    constructor
    · simp only [hr] at halt ⊢
      simpa [altB] using halt
    · intro m hm
      simp only [List.mem_cons] at hm
      rcases hm with hm | hm | hm
      · exact absurd hm (by simp)
      · exact (Ev.sleep.injEq _ _).mp hm ▸ rfl
      · exact fetchGo_sleep_ms _ _ _ _ 0 "" [] m hm

/-! Claim theorems. -/

/-- C1: every paginated fetch stops when the page budget is exhausted
(the number of transport calls never exceeds the budget), when a
response's continuation flag is false, or when a response carries no next
cursor — each of the three conditions alone bounds the calls; and a
search configured with a page budget of 1 issues exactly one transport
call whatever the responses are, in particular when the response claims
`has_next_page` true but returns no cursor. -/
theorem pagination_three_stops :
    (∀ (Raw : Type) (resp : Nat → Page Raw) (extract : Page Raw → Option (List Raw))
        (parse : Raw → Tweet) (fuel idx : Nat) (cur : String) (acc : List Tweet),
      numCalls (fetchGo resp extract parse fuel idx cur acc).2 ≤ fuel)
    ∧ (∀ (Raw : Type) (resp : Nat → Page Raw) (extract : Page Raw → Option (List Raw))
        (parse : Raw → Tweet) (fuel idx k : Nat) (cur : String) (acc : List Tweet),
        idx ≤ k → ((resp k).has_next_page = false ∨ (resp k).next_cursor = "") →
        numCalls (fetchGo resp extract parse fuel idx cur acc).2 ≤ k - idx + 1)
    ∧ (∀ (Raw : Type) (resp : String → String → Nat → Page Raw) (parse : Raw → Tweet)
        (now : Int) (dateMs : String → Option Int) (fmt : Int → String) (q : String)
        (mr : Option Nat) (so : Option String) (si : Option String),
        numCalls (search resp parse now dateMs fmt q ⟨mr, some 1, so, si⟩).2 = 1) := by
  refine ⟨?_, ?_, ?_⟩
  · intro Raw resp extract parse fuel idx cur acc
    exact fetchGo_le_calls resp extract parse fuel idx cur acc
  · intro Raw resp extract parse fuel idx k cur acc hik hk
    exact fetchGo_stop_calls resp extract parse k hk fuel idx cur acc hik
  · intro Raw resp parse now dateMs fmt q mr so si
    rw [search_snd_eq]
    rw [show jsOr (some 1) 1 = 1 from rfl, fetchGo_one]
    rfl

/-- Witness for C1: a budget of 5 against a response claiming more data
but carrying no cursor still issues at most one call. -/
theorem pagination_three_stops_witness :
    ((0 : Nat) ≤ 0 ∧ ((wRespStop 0).has_next_page = false ∨ (wRespStop 0).next_cursor = "")) ∧
    numCalls (fetchGo wRespStop Page.tweets id 5 0 "" []).2 ≤ 0 - 0 + 1 :=
  ⟨⟨le_refl 0, Or.inr rfl⟩,
    pagination_three_stops.2.1 Tweet wRespStop Page.tweets id 5 0 0 "" []
      (le_refl 0) (Or.inr rfl)⟩

/-- C2: when `opts.since` is supplied and yields a client-side cutoff,
every record returned by `search` has a creation time that parses and is
at or after the cutoff — the client-side re-filter applies regardless of
what the server returned. -/
theorem search_since_backstop {Raw : Type} (resp : String → String → Nat → Page Raw)
    (parse : Raw → Tweet) (now : Int) (dateMs : String → Option Int) (fmt : Int → String)
    (query : String) (opts : SearchOpts) (s : String) (cutoff : Int)
    (hs : opts.since = some s) (hc : parseSinceDate now dateMs s = some cutoff) :
    ∀ t ∈ (search resp parse now dateMs fmt query opts).1,
      ∃ ms, dateMs t.created_at = some ms ∧ cutoff ≤ ms :=
  search_since_mem resp parse now dateMs fmt query opts s cutoff hs hc

/-- Witness for C2: a search for the last hour at a concrete clock
against a concrete response. -/
theorem search_since_backstop_witness :
    (wOpts2.since = some "1h" ∧ parseSinceDate 3600000 wDateMs "1h" = some 0) ∧
    ∀ t ∈ (search wRespOne id 3600000 wDateMs wFmt "q" wOpts2).1,
      ∃ ms, wDateMs t.created_at = some ms ∧ (0 : Int) ≤ ms :=
  ⟨⟨rfl, by decide⟩,
    search_since_backstop wRespOne id 3600000 wDateMs wFmt "q" wOpts2 "1h" 0
      rfl (by decide)⟩

/-- C3 (spec-modelled): `set` followed by `get` under a sufficiently
large TTL round-trips the stored records; `get` returns the stored
records whenever the entry's age is at most the TTL, and is absent when
no entry exists, when the payload is corrupt, and when the age exceeds
the TTL. -/
theorem cache_roundtrip_law :
    (∀ (st : CacheStore) (now now2 : Int) (q p : String) (records : List Tweet) (ttl : Int),
      now2 - now ≤ ttl →
      cache.get (cache.set st now q p records) now2 q p ttl = some records)
    ∧ (∀ (now : Int) (q p : String) (ttl : Int),
        cache.get (fun _ => none) now q p ttl = none)
    ∧ (∀ (st : CacheStore) (now : Int) (q p : String) (ttl : Int) (e : CacheEntry),
        st (cache.cacheKey q p) = some e → e.payload = none →
        cache.get st now q p ttl = none)
    ∧ (∀ (st : CacheStore) (now : Int) (q p : String) (ttl : Int) (e : CacheEntry)
        (records : List Tweet),
        st (cache.cacheKey q p) = some e → e.payload = some records →
        ttl < now - e.mtime → cache.get st now q p ttl = none)
    ∧ (∀ (st : CacheStore) (now : Int) (q p : String) (ttl : Int) (e : CacheEntry)
        (records : List Tweet),
        st (cache.cacheKey q p) = some e → e.payload = some records →
        now - e.mtime ≤ ttl → cache.get st now q p ttl = some records) := by
  refine ⟨?_, ?_, ?_, ?_, ?_⟩
  · intro st now now2 q p records ttl h
    simp [cache.get, cache.set, h]
  · intro now q p ttl
    rfl
  · intro st now q p ttl e h1 h2
    simp [cache.get, h1, h2]
  · intro st now q p ttl e records h1 h2 h3
    simp only [cache.get, h1, h2]
    rw [if_neg (not_le.mpr h3)]
  · intro st now q p ttl e records h1 h2 h3
    simp only [cache.get, h1, h2]
    rw [if_pos h3]

/-- Witness for C3: a concrete round trip through the modelled store. -/
theorem cache_roundtrip_law_witness :
    ((10 : Int) - 0 ≤ 100) ∧
    cache.get (cache.set emptyStore 0 "q" "p" [wT1]) 10 "q" "p" 100 = some [wT1] :=
  ⟨by decide, cache_roundtrip_law.1 emptyStore 0 10 "q" "p" [wT1] 100 (by decide)⟩

/-- C4 counterexample: with a result-count ceiling of 5 but only one
accumulated record, the returned sequence has 1 record, not exactly 5 —
the ceiling is an upper bound, not an exact length. -/
theorem maxResults_exact_counterexample :
    wOpts4.maxResults = some 5 ∧
    (search wRespOne id 0 wDateMs wFmt "q" wOpts4).1.length = 1 ∧ (1 : Nat) ≠ 5 :=
  ⟨rfl, rfl, by decide⟩

/-- C4 amended: when a nonzero result-count ceiling `m` is supplied, the
final sequence is the accumulated-and-filtered sequence truncated to at
most `m` records — exactly `min m` of its length — and is a prefix of it
(original order preserved). -/
theorem maxResults_truncates_amended {Raw : Type} (resp : String → String → Nat → Page Raw)
    (parse : Raw → Tweet) (now : Int) (dateMs : String → Option Int) (fmt : Int → String)
    (query : String) (opts : SearchOpts) (m : Nat)
    (hm : opts.maxResults = some m) (h0 : m ≠ 0) :
    (search resp parse now dateMs fmt query opts).1 =
      ((searchAccum resp parse now dateMs fmt query opts).1).take m ∧
    (search resp parse now dateMs fmt query opts).1.length =
      min m ((searchAccum resp parse now dateMs fmt query opts).1).length ∧
    (search resp parse now dateMs fmt query opts).1 <+:
      (searchAccum resp parse now dateMs fmt query opts).1 := by
  have he : (search resp parse now dateMs fmt query opts).1 =
      ((searchAccum resp parse now dateMs fmt query opts).1).take m := by
    rw [search_fst_eq, hm]
    simp [applyMax, h0]
  refine ⟨he, ?_, ?_⟩
  · rw [he]
    exact List.length_take m _
  · rw [he]
    exact List.take_prefix m _

/-- Witness for C4 amended: the ceiling of 5 over a one-record
accumulation. -/
theorem maxResults_truncates_amended_witness :
    (wOpts4.maxResults = some 5 ∧ (5 : Nat) ≠ 0) ∧
    (search wRespOne id 0 wDateMs wFmt "q" wOpts4).1 =
      ((searchAccum wRespOne id 0 wDateMs wFmt "q" wOpts4).1).take 5 ∧
    (search wRespOne id 0 wDateMs wFmt "q" wOpts4).1.length =
      min 5 ((searchAccum wRespOne id 0 wDateMs wFmt "q" wOpts4).1).length ∧
    (search wRespOne id 0 wDateMs wFmt "q" wOpts4).1 <+:
      (searchAccum wRespOne id 0 wDateMs wFmt "q" wOpts4).1 :=
  ⟨⟨rfl, by decide⟩,
    maxResults_truncates_amended wRespOne id 0 wDateMs wFmt "q" wOpts4 5 rfl (by decide)⟩

/-- C5: within one fetch, every trace alternates transport calls with
single waits of exactly `RATE_DELAY_MS` (200 ms) — a delay between any
two back-to-back calls — and never ends with a wait, whether the loop
ends by budget, by a false continuation flag or by a missing cursor. -/
theorem interpage_delay :
    (∀ (Raw : Type) (resp : String → String → Nat → Page Raw) (parse : Raw → Tweet)
        (now : Int) (dateMs : String → Option Int) (fmt : Int → String)
        (q : String) (opts : SearchOpts),
      altB (search resp parse now dateMs fmt q opts).2 = true ∧
      ∀ m, Ev.sleep m ∈ (search resp parse now dateMs fmt q opts).2 → m = RATE_DELAY_MS)
    ∧ (∀ (Raw : Type) (resp : String → Nat → Page Raw) (parse : Raw → Tweet)
        (tweetId : String) (opts : ThreadOpts),
        altB (thread resp parse tweetId opts).2 = true ∧
        ∀ m, Ev.sleep m ∈ (thread resp parse tweetId opts).2 → m = RATE_DELAY_MS)
    ∧ (∀ (Raw : Type) (userResp : UserResp) (resp : String → String → Nat → Page Raw)
        (parse : Raw → Tweet) (username : String) (opts : ProfileOpts)
        (out : List Tweet × List Ev),
        profile userResp resp parse username opts = some out →
        altB out.2 = true ∧ ∀ m, Ev.sleep m ∈ out.2 → m = RATE_DELAY_MS) := by
  refine ⟨?_, ?_, ?_⟩
  · intro Raw resp parse now dateMs fmt q opts
    exact search_trace_ok resp parse now dateMs fmt q opts
  · intro Raw resp parse tweetId opts
    exact thread_trace_ok resp parse tweetId opts
  · intro Raw userResp resp parse username opts out h
    exact profile_trace_ok userResp resp parse username opts out h

/-- Witness for C5: a two-page search whose trace contains a 200 ms wait,
and a concrete profile fetch with its full trace. -/
theorem interpage_delay_witness :
    (Ev.sleep 200 ∈ (search wRespC id 0 wDateMs wFmt "q" wOptsC).2) ∧
    (200 : Nat) = RATE_DELAY_MS ∧
    (profile wUser wRespC id "u" wPOpts = some wProfOut ∧ altB wProfOut.2 = true) :=
  ⟨by decide,
    (interpage_delay.1 Tweet wRespC id 0 wDateMs wFmt "q" wOptsC).2 200 (by decide),
    by decide,
    (interpage_delay.2.2 Tweet wUser wRespC id "u" wPOpts wProfOut (by decide)).1⟩

/-- C6: `sortBy` returns a permutation of its input (the embedding is
pure, so the input sequence itself is untouched), sorted descending by
the named engagement counter, stable in the sense that records with any
fixed metric value keep their original relative order; the empty and
single-element sequences are returned as they are, and sorting is
idempotent. -/
theorem sortBy_spec :
    (∀ (l : List Tweet) (m : Metric), (sortBy l m).Perm l)
    ∧ (∀ (l : List Tweet) (m : Metric),
        (sortBy l m).Pairwise (fun a b => b.metrics.get m ≤ a.metrics.get m))
    ∧ (∀ (l : List Tweet) (m : Metric) (v : Nat),
        (sortBy l m).filter (fun t => t.metrics.get m == v) =
          l.filter (fun t => t.metrics.get m == v))
    ∧ (∀ m : Metric, sortBy [] m = [])
    ∧ (∀ (t : Tweet) (m : Metric), sortBy [t] m = [t])
    ∧ (∀ (l : List Tweet) (m : Metric), sortBy (sortBy l m) m = sortBy l m) := by
  refine ⟨?_, ?_, ?_, ?_, ?_, ?_⟩
  · intro l m
    exact sortByKey_perm _ l
  · intro l m
    exact sortByKey_pairwise _ l
  · intro l m v
    exact sortByKey_filter _ v l
  · intro m
    rfl
  · intro t m
    rfl
  · intro l m
    exact sortByKey_of_pairwise _ _ (sortByKey_pairwise _ l)

/-- C7: `dedupe` is a sublist of its input (order preserved, length at
most the input's), every retained record is the first occurrence of its
identifier, every input identifier is represented, and `dedupe` is
idempotent. -/
theorem dedupe_spec :
    (∀ l : List Tweet, List.Sublist (dedupe l) l)
    ∧ (∀ (l : List Tweet) (t : Tweet), t ∈ dedupe l →
        l.find? (fun u => u.id == t.id) = some t)
    ∧ (∀ (l : List Tweet) (t : Tweet), t ∈ l → ∃ u ∈ dedupe l, u.id = t.id)
    ∧ (∀ l : List Tweet, dedupe (dedupe l) = dedupe l)
    ∧ (∀ l : List Tweet, (dedupe l).length ≤ l.length) := by
  refine ⟨?_, ?_, ?_, dedupe_idem, ?_⟩
  · intro l
    exact dedupeGo_sublist [] l
  · intro l t ht
    exact (mem_dedupeGo_first l [] ht).2
  · intro l t ht
    rcases dedupeGo_covers l [] ht with hs | h
    · exact absurd hs (by simp)
    · exact h
  · intro l
    exact (dedupeGo_sublist [] l).length_le

/-- Witness for C7: in a sequence repeating identifier "1", the record
kept for "1" is the first occurrence. -/
theorem dedupe_spec_witness :
    (wT1 ∈ dedupe wDup) ∧ wDup.find? (fun u => u.id == wT1.id) = some wT1 :=
  ⟨by decide, dedupe_spec.2.1 wDup wT1 (by decide)⟩

/-- C8: a page whose record-list field is absent or not a list
contributes zero records — `parseTweets` yields the empty sequence and
the (total) loop keeps going, still terminating through the page budget
or the other stop conditions. -/
theorem malformed_page_zero_records :
    (∀ (Raw : Type) (parse : Raw → Tweet), parseTweets parse none = [])
    ∧ (∀ (Raw : Type) (resp : Nat → Page Raw) (extract : Page Raw → Option (List Raw))
        (parse : Raw → Tweet) (fuel idx : Nat) (cur : String) (acc : List Tweet),
        (∀ k, extract (resp k) = none) →
        (fetchGo resp extract parse fuel idx cur acc).1 = acc ∧
        numCalls (fetchGo resp extract parse fuel idx cur acc).2 ≤ fuel)
    ∧ (∀ (Raw : Type) (resp : Nat → Page Raw) (extract : Page Raw → Option (List Raw))
        (parse : Raw → Tweet) (fuel idx k : Nat) (cur : String) (acc : List Tweet),
        idx ≤ k → ((resp k).has_next_page = false ∨ (resp k).next_cursor = "") →
        numCalls (fetchGo resp extract parse fuel idx cur acc).2 ≤ k - idx + 1) := by
  refine ⟨?_, ?_, ?_⟩
  · intro Raw parse
    rfl
  · intro Raw resp extract parse fuel idx cur acc hnone
    exact ⟨fetchGo_none_records resp extract parse hnone fuel idx cur acc,
      fetchGo_le_calls resp extract parse fuel idx cur acc⟩
  · intro Raw resp extract parse fuel idx k cur acc hik hk
    exact fetchGo_stop_calls resp extract parse k hk fuel idx cur acc hik

/-- Witness for C8: three pages all lacking the record-list field leave
the accumulator empty while the budget still bounds the calls. -/
theorem malformed_page_zero_records_witness :
    (fetchGo wRespNoneRecs Page.tweets id 3 0 "" []).1 = [] ∧
    numCalls (fetchGo wRespNoneRecs Page.tweets id 3 0 "" []).2 ≤ 3 :=
  malformed_page_zero_records.2.1 Tweet wRespNoneRecs Page.tweets id 3 0 "" []
    (fun _ => rfl)

/-- C9: numeric options equal to 0 behave as if absent — `search` with
`pages = 0` issues exactly one transport call, `thread` with `pages = 0`
issues at most two, `profile` with `count = 0` behaves exactly as with
the default count of 20, and `search` with `maxResults = 0` behaves
exactly as with no ceiling at all. -/
theorem zero_option_defaults :
    (∀ (Raw : Type) (resp : String → String → Nat → Page Raw) (parse : Raw → Tweet)
        (now : Int) (dateMs : String → Option Int) (fmt : Int → String) (q : String)
        (mr : Option Nat) (so : Option String) (si : Option String),
      numCalls (search resp parse now dateMs fmt q ⟨mr, some 0, so, si⟩).2 = 1)
    ∧ (∀ (Raw : Type) (resp : String → Nat → Page Raw) (parse : Raw → Tweet)
        (tweetId : String),
        numCalls (thread resp parse tweetId ⟨some 0⟩).2 ≤ 2)
    ∧ (∀ (Raw : Type) (userResp : UserResp) (resp : String → String → Nat → Page Raw)
        (parse : Raw → Tweet) (username : String) (ir : Bool),
        profile userResp resp parse username ⟨some 0, ir⟩ =
          profile userResp resp parse username ⟨some 20, ir⟩)
    ∧ (∀ (Raw : Type) (resp : String → String → Nat → Page Raw) (parse : Raw → Tweet)
        (now : Int) (dateMs : String → Option Int) (fmt : Int → String) (q : String)
        (pg : Option Nat) (so : Option String) (si : Option String),
        search resp parse now dateMs fmt q ⟨some 0, pg, so, si⟩ =
          search resp parse now dateMs fmt q ⟨none, pg, so, si⟩) := by
  refine ⟨?_, ?_, ?_, ?_⟩
  · intro Raw resp parse now dateMs fmt q mr so si
    rw [search_snd_eq]
    rw [show jsOr (some 0) 1 = 1 from rfl, fetchGo_one]
    rfl
  · intro Raw resp parse tweetId
    exact fetchGo_le_calls (resp tweetId) Page.replies parse (jsOr (some 0) 2) 0 "" []
  · intro Raw userResp resp parse username ir
    rfl
  · intro Raw resp parse now dateMs fmt q pg so si
    rfl

/-- C10: when `opts.since` is supplied but the query already contains
the substring `"since:"`, the computed operator is not appended — the
outgoing query is the caller's query unchanged — while the client-side
recency filter still bounds every returned record's creation time by the
cutoff. -/
theorem since_in_query_not_appended {Raw : Type} (resp : String → String → Nat → Page Raw)
    (parse : Raw → Tweet) (now : Int) (dateMs : String → Option Int) (fmt : Int → String)
    (query : String) (opts : SearchOpts) (s : String)
    (hs : opts.since = some s) (hq : includesSub "since:".toList query.toList = true) :
    searchQuery now dateMs fmt query opts.since = query ∧
    ∀ cutoff, parseSinceDate now dateMs s = some cutoff →
      ∀ t ∈ (search resp parse now dateMs fmt query opts).1,
        ∃ ms, dateMs t.created_at = some ms ∧ cutoff ≤ ms := by
  constructor
  · rw [hs]
    simp only [searchQuery]
    split
    · rfl
    · rw [if_pos hq]
  · intro cutoff hc
    exact search_since_mem resp parse now dateMs fmt query opts s cutoff hs hc

/-- Witness for C10: a query already carrying a `since:` operator. -/
theorem since_in_query_not_appended_witness :
    (wOpts2.since = some "1h" ∧
      includesSub "since:".toList "a since:b".toList = true) ∧
    searchQuery 3600000 wDateMs wFmt "a since:b" wOpts2.since = "a since:b" ∧
    ∀ cutoff, parseSinceDate 3600000 wDateMs "1h" = some cutoff →
      ∀ t ∈ (search wRespOne id 3600000 wDateMs wFmt "a since:b" wOpts2).1,
        ∃ ms, wDateMs t.created_at = some ms ∧ cutoff ≤ ms :=
  ⟨⟨rfl, by decide⟩,
    since_in_query_not_appended wRespOne id 3600000 wDateMs wFmt "a since:b" wOpts2 "1h"
      rfl (by decide)⟩

end TwitterApi

